import Mathlib

/-!
Verification of the chunked-file storage library (upload/download over a
webhook transport).  The JavaScript source is shallowly embedded: byte
payloads are lists of naturals, JavaScript strings are lists of characters,
the remote message store is an association list from message ids to stored
messages, and the concurrent completion order of the piece uploads is an
explicit permutation parameter.
-/

set_option linter.unusedVariables false

/-- Bytes of a payload.  Only equality of bytes matters to the protocol, so
they are modelled as naturals. -/
abbrev Byte := Nat

/-- JavaScript strings are modelled as lists of characters. -/
abbrev Str := List Char

/-- Backtick character, written via its code point. -/
def tkCh : Char := Char.ofNat 96

/-- Double-quote character. -/
def qCh : Char := Char.ofNat 34

/-- Backslash character. -/
def bslCh : Char := Char.ofNat 92

/-- Opening curly brace character. -/
def lbrCh : Char := Char.ofNat 123

/-- Closing curly brace character. -/
def rbrCh : Char := Char.ofNat 125

/-- Newline character. -/
def nlCh : Char := Char.ofNat 10

/-- Space character. -/
def spCh : Char := ' '

/-- Underscore character, the separator in piece display names. -/
def uscCh : Char := '_'

/-- Decimal digit test on a character. -/
def isDigitCh (c : Char) : Bool := decide (48 ≤ c.toNat) && decide (c.toNat ≤ 57)

/-- Character for the decimal digit `n < 10`. -/
def digitCh (n : Nat) : Char := Char.ofNat (48 + n)

/-- Accumulating left-to-right evaluation of a digit string. -/
def digitsValGo (a : Nat) : Str → Nat
  | [] => a
  | c :: r => digitsValGo (10 * a + (c.toNat - 48)) r

/-- Value of a string of decimal digits, read left to right; this is the
numeric value `parseInt` assigns to a digit string. -/
def digitsVal (s : Str) : Nat := digitsValGo 0 s

/-- Fuel-driven decimal printer; `fuel` bounds the number of digits
produced and always suffices when `n < fuel`. -/
def natDigitsGo : Nat → Nat → Str
  | 0, _ => []
  | fuel + 1, n =>
    if n < 10 then [digitCh n]
    else natDigitsGo fuel (n / 10) ++ [digitCh (n % 10)]

/-- Decimal representation of a natural, modelling the JavaScript
conversion `String(i)`. -/
def natDigits (n : Nat) : Str := natDigitsGo (n + 1) n

/-- Model of `String.prototype.padStart(3, "0")`: prepend zeros until the
length is at least 3. -/
def padStart3 (s : Str) : Str := List.replicate (3 - s.length) (digitCh 0) ++ s

/-- Display name given to piece `i` by `upload` in part_000:
`String(i).padStart(3, "0") + "_" + fileName`. -/
def pieceName (i : Nat) (fileName : Str) : Str :=
  padStart3 (natDigits i) ++ uscCh :: fileName

/-- Characters of a name before the first underscore, modelling
`filename.split("_")[0]` in getAllFiles (download-file.js). -/
def beforeUsc : Str → Str
  | [] => []
  | c :: r => if c = uscCh then [] else c :: beforeUsc r

/-- Maximal leading run of decimal digits, the part of a string that
`parseInt(s, 10)` consumes. -/
def leadDigits : Str → Str
  | [] => []
  | c :: r => if isDigitCh c then c :: leadDigits r else []

/-- Numeric sort key `parseInt(filename.split("_")[0], 10)` used by
getAllFiles to order pieces.  `parseInt` yields NaN when no digits are
present; every display name produced by `upload` starts with digits, and
for those names this function returns exactly the parsed value (the NaN
case is mapped to 0 and is unreachable in the protocol). -/
def nameIdx (s : Str) : Nat := digitsVal (leadDigits (beforeUsc s))

/-- Whitespace characters removed by `String.prototype.trim` (the
ECMAScript WhiteSpace and LineTerminator sets). -/
def isTrimWs (c : Char) : Bool :=
  let n := c.toNat
  (decide (9 ≤ n) && decide (n ≤ 13)) || decide (n = 32) || decide (n = 160) ||
    decide (n = 0x1680) || (decide (0x2000 ≤ n) && decide (n ≤ 0x200A)) ||
    decide (n = 0x2028) || decide (n = 0x2029) || decide (n = 0x202F) ||
    decide (n = 0x205F) || decide (n = 0x3000) || decide (n = 0xFEFF)

/-- Model of `String.prototype.trim`. -/
def jsTrim (s : Str) : Str :=
  ((s.dropWhile isTrimWs).reverse.dropWhile isTrimWs).reverse

/-- The validation test `!fileName || fileName.trim() === ""` used by
uploadFileStream and uploadFile in DisFile.js (an empty string is falsy). -/
def isBlankName (s : Str) : Bool := s.isEmpty || (jsTrim s).isEmpty

/-- Fuel-driven slicing loop of createChunkedStream (part_000): while
`offset < fileBuffer.length`, push `fileBuffer.slice(offset, offset + C)`
and advance by `C`.  Fuel `≥ B.length` always suffices when `0 < C`; the
source loops forever when the configured chunk size is `0`, so the model
is only used with positive `C`. -/
def chunksGo (C : Nat) : Nat → List Byte → List (List Byte)
  | 0, _ => []
  | _, [] => []
  | fuel + 1, B => B.take C :: chunksGo C fuel (B.drop C)

/-- Pieces delivered for the byte payload `B` with chunk size `C`: the
data units pushed by createChunkedStream (equivalently by a file read
stream opened with `highWaterMark C`), each of which getChunks (utils.js)
wraps into exactly one piece stream. -/
def chunksOf (C : Nat) (B : List Byte) : List (List Byte) := chunksGo C B.length B

/-- Lowercase hexadecimal digit character for `n < 16`. -/
def hexDigitCh (n : Nat) : Char := Char.ofNat (if n < 10 then 48 + n else 87 + n)

/-- Escape of a single character performed by `JSON.stringify` inside a
string literal: quote, backslash and the named control characters get a
backslash escape, the remaining control characters get a `\u00xx` escape,
and every other character (backtick included) is emitted verbatim. -/
def escapeCh (c : Char) : Str :=
  if c = qCh then [bslCh, qCh]
  else if c = bslCh then [bslCh, bslCh]
  else if c = Char.ofNat 8 then [bslCh, 'b']
  else if c = Char.ofNat 9 then [bslCh, 't']
  else if c = nlCh then [bslCh, 'n']
  else if c = Char.ofNat 12 then [bslCh, 'f']
  else if c = Char.ofNat 13 then [bslCh, 'r']
  else if c.toNat < 32 then
    [bslCh, 'u', digitCh 0, digitCh 0, hexDigitCh (c.toNat / 16), hexDigitCh (c.toNat % 16)]
  else [c]

/-- JSON string-literal escaping of a whole string. -/
def escStr : Str → Str
  | [] => []
  | c :: r => escapeCh c ++ escStr r

/-- Quoted key `"filename"` as it appears in the manifest JSON. -/
def keyFilenameTok : Str := [qCh, 'f', 'i', 'l', 'e', 'n', 'a', 'm', 'e', qCh]

/-- Quoted key `"ids"` as it appears in the manifest JSON. -/
def keyIdsTok : Str := [qCh, 'i', 'd', 's', qCh]

/-- One array element line `    "<id>"` of the pretty-printed manifest. -/
def itemTxt (s : Str) : Str :=
  spCh :: spCh :: spCh :: spCh :: qCh :: escStr s ++ [qCh]

/-- Array element lines joined by `",\n"`. -/
def itemsTxt : List Str → Str
  | [] => []
  | [s] => itemTxt s
  | s :: t :: rest => itemTxt s ++ ',' :: nlCh :: itemsTxt (t :: rest)

/-- Pretty-printed `ids` array produced by
`JSON.stringify({..., ids: ids}, null, 2)`: `[]` when empty, otherwise
one indented element per line. -/
def idsTxt : List Str → Str
  | [] => ['[', ']']
  | s :: rest => '[' :: nlCh :: itemsTxt (s :: rest) ++ [nlCh, spCh, spCh, ']']

/-- Body of the manifest message:
`JSON.stringify({filename: fileName, ids: ids}, null, 2)` exactly as
produced with two-space indentation. -/
def manifestBody (fileName : Str) (ids : List Str) : Str :=
  (lbrCh :: nlCh :: spCh :: spCh :: keyFilenameTok ++ ':' :: spCh :: qCh :: escStr fileName ++
    qCh :: ',' :: nlCh :: spCh :: spCh :: keyIdsTok ++ ':' :: spCh :: idsTxt ids) ++ [nlCh, rbrCh]

/-- Manifest message content stored by sendFilePrimaryID (part_000): the
JSON body wrapped in Markdown code-block backtick framing. -/
def encodeManifest (fileName : Str) (ids : List Str) : Str :=
  tkCh :: tkCh :: tkCh :: manifestBody fileName ids ++ [tkCh, tkCh, tkCh]

/-- Model of `content.replaceAll("\x60\x60\x60", "")` in download
(download-file.js): repeatedly delete the leftmost occurrence of three
consecutive backticks. -/
def removeTicks : List Char → List Char
  | [] => []
  | [a] => [a]
  | [a, b] => [a, b]
  | a :: b :: c :: rest =>
    if a = tkCh ∧ b = tkCh ∧ c = tkCh then removeTicks rest
    else a :: removeTicks (b :: c :: rest)

/-- Test for an occurrence of three consecutive backticks, via a sliding
window. -/
def hasTriple : List Char → Bool
  | a :: b :: c :: rest => (a = tkCh && b = tkCh && c = tkCh) || hasTriple (b :: c :: rest)
  | _ => false

/-- Test that a string contains no backtick at all. -/
def noTick (s : Str) : Bool := s.all (fun c => !(c = tkCh))

/-- JSON insignificant whitespace (space, tab, newline, carriage return). -/
def isJsonWs (c : Char) : Bool :=
  decide (c.toNat = 32) || decide (c.toNat = 9) || decide (c.toNat = 10) || decide (c.toNat = 13)

/-- Skip insignificant JSON whitespace. -/
def skipWs : Str → Str
  | [] => []
  | c :: r => if isJsonWs c then skipWs r else c :: r

/-- Strip an expected leading token, or fail. -/
def stripLead : Str → Str → Option Str
  | [], s => some s
  | p :: ps, c :: cs => if c = p then stripLead ps cs else none
  | _ :: _, [] => none

/-- Skip whitespace, then require the character `c`. -/
def expectCh (c : Char) (s : Str) : Option Str :=
  match skipWs s with
  | d :: r => if d = c then some r else none
  | [] => none

/-- Value of a single-character JSON escape (the inverse of the named
escapes emitted by `JSON.stringify`, plus the optional `\/`). -/
def unescCh (c : Char) : Option Char :=
  if c = qCh then some qCh
  else if c = bslCh then some bslCh
  else if c = '/' then some '/'
  else if c = 'b' then some (Char.ofNat 8)
  else if c = 't' then some (Char.ofNat 9)
  else if c = 'n' then some nlCh
  else if c = 'f' then some (Char.ofNat 12)
  else if c = 'r' then some (Char.ofNat 13)
  else none

/-- Value of a hexadecimal digit character. -/
def hexVal (c : Char) : Option Nat :=
  if decide (48 ≤ c.toNat) && decide (c.toNat ≤ 57) then some (c.toNat - 48)
  else if decide (97 ≤ c.toNat) && decide (c.toNat ≤ 102) then some (c.toNat - 87)
  else if decide (65 ≤ c.toNat) && decide (c.toNat ≤ 70) then some (c.toNat - 55)
  else none

/-- Parse the body of a JSON string literal (the opening quote already
consumed), returning the decoded string and the input after the closing
quote.  Models the string production of `JSON.parse`. -/
def parseStrBody : Str → Option (Str × Str)
  | [] => none
  | c :: rest =>
    if c = qCh then some ([], rest)
    else if c = bslCh then
      match rest with
      | [] => none
      | e :: rest2 =>
        if e = 'u' then
          match rest2 with
          | h1 :: h2 :: h3 :: h4 :: rest3 =>
            match hexVal h1, hexVal h2, hexVal h3, hexVal h4 with
            | some a, some b, some c2, some d =>
              (parseStrBody rest3).map
                (fun p => (Char.ofNat (((a * 16 + b) * 16 + c2) * 16 + d) :: p.1, p.2))
            | _, _, _, _ => none
          | _ => none
        else
          match unescCh e with
          | some d => (parseStrBody rest2).map (fun p => (d :: p.1, p.2))
          | none => none
    else (parseStrBody rest).map (fun p => (c :: p.1, p.2))

/-- Parse the elements of a non-empty JSON array of strings, starting at
the first element; `fuel` bounds the number of elements and the callers
always supply enough. -/
def parseIdsLoop : Nat → Str → Option (List Str × Str)
  | 0, _ => none
  | fuel + 1, s =>
    match skipWs s with
    | c :: r =>
      if c = qCh then
        match parseStrBody r with
        | some (x, r2) =>
          match skipWs r2 with
          | d :: r3 =>
            if d = ',' then (parseIdsLoop fuel r3).map (fun p => (x :: p.1, p.2))
            else if d = ']' then some ([x], r3)
            else none
          | [] => none
        | none => none
      else none
    | [] => none

/-- Parse a JSON array of strings. -/
def parseIds (fuel : Nat) (s : Str) : Option (List Str × Str) :=
  match expectCh '[' s with
  | some r =>
    match skipWs r with
    | d :: r2 => if d = ']' then some ([], r2) else parseIdsLoop fuel (d :: r2)
    | [] => none
  | none => none

/-- Parse a manifest document: model of `JSON.parse` restricted to the
object shape `filename`-then-`ids` that sendFilePrimaryID stores (the
only shape ever decoded by download), with arbitrary insignificant
whitespace between tokens and nothing but whitespace after the closing
brace. -/
def parseManifestDoc (s : Str) : Option (Str × List Str) :=
  (expectCh lbrCh s).bind fun r =>
  (stripLead keyFilenameTok (skipWs r)).bind fun r1 =>
  (expectCh ':' r1).bind fun r2 =>
  (expectCh qCh r2).bind fun r3 =>
  (parseStrBody r3).bind fun p =>
  (expectCh ',' p.2).bind fun r4 =>
  (stripLead keyIdsTok (skipWs r4)).bind fun r5 =>
  (expectCh ':' r5).bind fun r6 =>
  (parseIds (r6.length + 1) r6).bind fun q =>
  (expectCh rbrCh q.2).bind fun r7 =>
  if skipWs r7 = [] then some (p.1, q.1) else none

/-- Decoding performed by download (download-file.js): strip the backtick
framing with `replaceAll` and parse the remaining JSON. -/
def decodeManifest (content : Str) : Option (Str × List Str) :=
  parseManifestDoc (removeTicks content)

/-- Message stored on the transport under one id: either a piece (an
attachment with a display name and raw bytes) or a text message (the
manifest content). -/
inductive Message where
  | piece (filename : Str) (bytes : List Byte)
  | text (content : Str)
deriving DecidableEq

/-- State of the transport after uploads: an association list from message
id to stored message. -/
abbrev Store := List (Str × Message)

/-- Lookup of a message by id (first matching entry). -/
def storeFind : Store → Str → Option Message
  | [], _ => none
  | (k, m) :: rest, id => if k = id then some m else storeFind rest id

/-- Transport operations issued by the upload path, recorded as a trace:
one POST per piece (oneFile) and one POST for the manifest
(sendFilePrimaryID). -/
inductive TOp where
  | putPiece (filename : Str)
  | putManifest
deriving DecidableEq

/-- Upload receipt resolved by `upload` (part_000). -/
structure UploadOk where
  primaryID : Str
  fileName : Str
  fileChunkIDs : List Str
deriving DecidableEq

/-- Outcome of the `upload` orchestrator: the resolved receipt, or the
rejection raised when a piece upload fails (the spec names this rejection
`PartialUploadError`; the code rejects with the failing request's error
message). -/
inductive UploadOutcome where
  | ok (r : UploadOk)
  | partialUploadError (msg : Str)
deriving DecidableEq

/-- Per-piece transport result for the upload fan-out: the id the webhook
assigns to piece `i`, or the error message of a failed request. -/
abbrev PieceRes := Nat → Except Str Str

/-- Error component of an `Except`. -/
def exceptErr : Except Str Str → Option Str
  | Except.error e => some e
  | Except.ok _ => none

/-- Handle component of an `Except` (unreachable default for errors). -/
def exceptHdl : Except Str Str → Str
  | Except.ok h => h
  | Except.error _ => []

/-- Rejection reason of `Promise.all` over the piece uploads: the error of
the first piece, in completion order, whose request failed. -/
def firstFail (perm : List Nat) (res : PieceRes) : Option Str :=
  perm.findSome? (fun i => exceptErr (res i))

/-- Model of `upload` (part_000 lines 81-110).  `chunks` are the piece
byte lists in index order, `perm` is the order in which the concurrent
`oneFile` calls complete (a permutation of the indices), `res` gives each
request's outcome and `primary` is the id the webhook assigns to the
manifest message.  All piece POSTs are issued at fan-out time (`TOp`
trace, in submission order); `ids.push` appends each resolved id in
completion order, so on success `fileChunkIDs` is the completion-order
list of ids, which sendFilePrimaryID then stores verbatim.  On any piece
failure `Promise.all` rejects and the manifest POST never happens. -/
def uploadRun (chunks : List (List Byte)) (fileName : Str) (res : PieceRes)
    (perm : List Nat) (primary : Str) : UploadOutcome × List TOp :=
  let n := chunks.length
  let pieceOps := (List.range n).map (fun i => TOp.putPiece (pieceName i fileName))
  match firstFail perm res with
  | some e => (UploadOutcome.partialUploadError e, pieceOps)
  | none =>
      (UploadOutcome.ok ⟨primary, fileName, perm.map (fun i => exceptHdl (res i))⟩,
        pieceOps ++ [TOp.putManifest])

/-- Transport state after a fully successful upload of payload `B` in
chunks of size `C`: piece `i` is stored under id `hdl i` with display name
`pieceName i`, and the manifest message (whose `ids` field lists the piece
ids in completion order `perm`) is stored under `primary`. -/
def uploadStore (C : Nat) (B : List Byte) (fileName : Str) (hdl : Nat → Str)
    (primary : Str) (perm : List Nat) : Store :=
  (primary, Message.text (encodeManifest fileName (perm.map hdl))) ::
    (List.range (chunksOf C B).length).map
      (fun i => (hdl i, Message.piece (pieceName i fileName) ((chunksOf C B).getD i [])))

/-- Resolution of one chunk id by getAllFiles (download-file.js): fetch
the message, read `attachments[0]`'s display name, and (in mergeToBuffer)
fetch its URL, which returns the stored bytes unchanged. -/
def lookupPiece (store : Store) (id : Str) : Option (Str × List Byte) :=
  match storeFind store id with
  | some (Message.piece fn bs) => some (fn, bs)
  | _ => none

/-- Resolution of all chunk ids.  `Promise.all` preserves the order of the
`ids` array in its result, whatever the completion order of the individual
requests, so the resolved list is in `ids` order; `none` models the
rejection when any single fetch fails. -/
def fetchPieces (store : Store) : List Str → Option (List (Str × List Byte))
  | [] => some []
  | id :: ids =>
    match lookupPiece store id, fetchPieces store ids with
    | some f, some fs => some (f :: fs)
    | _, _ => none

/-- Comparator-based reordering performed by getAllFiles:
`results.sort((a, b) => numA - numB)` with `numX` the leading integer of
the display name; JavaScript's sort is stable, modelled by a stable
insertion sort on the same key. -/
def sortFiles (files : List (Str × List Byte)) : List (Str × List Byte) :=
  files.insertionSort (fun a b => nameIdx a.1 ≤ nameIdx b.1)

/-- Model of getAllFiles: resolve every chunk id, then sort by the numeric
index embedded in the display names. -/
def getAllFilesDL (store : Store) (ids : List Str) : Option (List (Str × List Byte)) :=
  (fetchPieces store ids).map sortFiles

/-- Model of mergeToBuffer: fetch each piece's bytes sequentially in list
order and concatenate (`Buffer.concat`); each fetch returns the stored
bytes unchanged. -/
def mergeToBuffer (files : List (Str × List Byte)) : List Byte :=
  (files.map (fun f => f.2)).flatten

/-- Model of download (download-file.js lines 101-122): fetch the primary
message, strip the code-block framing and parse the JSON, resolve and sort
all pieces, and merge them into one buffer. -/
def download (store : Store) (filePrimaryID : Str) : Option (List Byte) :=
  match storeFind store filePrimaryID with
  | some (Message.text content) =>
    match decodeManifest content with
    | some pr => (getAllFilesDL store pr.2).map mergeToBuffer
    | none => none
  | _ => none

/-- Observable behaviour of the object passed as `fileStream`: whether it
is an instance of `stream.Readable`, whether it ever emits data, and the
message of an `error` event if one is emitted. -/
structure StreamBehavior where
  isReadable : Bool
  emitsData : Bool
  emitsError : Option Str

/-- Message returned when the argument is not a Readable stream. -/
def invalidStreamMsg : Str :=
  ("Invalid file stream: The provided object is not a valid Readable stream.").toList

/-- Message computed inside the `end` handler of checkFileStream for an
empty stream. -/
def emptyStreamMsg : Str := ("Stream is empty.").toList

/-- Message computed inside the `error` handler of checkFileStream. -/
def streamErrMsgOf (m : Str) : Str := ("Stream error: ").toList ++ m

/-- Rejection message for a blank file name. -/
def emptyNameMsg : Str := ("fileName cannot be empty.").toList

/-- Rejection message prefix added by uploadFileStream when `upload`
rejects. -/
def uploadFailedMsgOf (m : Str) : Str := ("Upload failed: ").toList ++ m

/-- Model of checkFileStream (utils.js lines 9-39).  The function returns
an error string synchronously only for a non-Readable argument; for a
Readable it registers `error`, `data` and `end` handlers whose computed
result strings are `return`ed into the event-emitter machinery and
discarded, then returns `null`.  The first component is the function's
return value; the second collects the strings computed inside the handlers
that are never surfaced to the caller. -/
def checkFileStream (st : StreamBehavior) : Option Str × List Str :=
  if st.isReadable = false then (some invalidStreamMsg, [])
  else
    (none,
      (match st.emitsError with
        | some m => [streamErrMsgOf m]
        | none => []) ++
      (if st.emitsData = false then [emptyStreamMsg] else []))

/-- Rejection values of uploadFileStream (DisFile.js): the synchronous
validation failures (non-Readable argument, blank file name — the spec's
`ValidationError`s) and the wrapped failure of the upload orchestration. -/
inductive Rejection where
  | validation (msg : Str)
  | uploadFailed (msg : Str)
deriving DecidableEq

/-- Outcome of uploadFileStream. -/
inductive StreamOutcome where
  | ok (r : UploadOk)
  | rejected (e : Rejection)
deriving DecidableEq

/-- Model of DisFile.uploadFileStream.  Steps, in source order: validate
the stream object with checkFileStream (rejecting with its message when it
is non-null); read the whole stream through getChunks — each delivered
`units` entry becomes exactly one piece, with no transport traffic; reject
when the file name is blank; otherwise run `upload` and either resolve
with its receipt or reject with its message prefixed by `Upload failed: `.
The second component is the trace of transport operations performed. -/
def uploadFileStream (st : StreamBehavior) (units : List (List Byte)) (fileName : Str)
    (res : PieceRes) (perm : List Nat) (primary : Str) : StreamOutcome × List TOp :=
  match (checkFileStream st).1 with
  | some msg => (StreamOutcome.rejected (Rejection.validation msg), [])
  | none =>
    if isBlankName fileName then
      (StreamOutcome.rejected (Rejection.validation emptyNameMsg), [])
    else
      match uploadRun units fileName res perm primary with
      | (UploadOutcome.ok r, ops) => (StreamOutcome.ok r, ops)
      | (UploadOutcome.partialUploadError e, ops) =>
          (StreamOutcome.rejected (Rejection.uploadFailed (uploadFailedMsgOf e)), ops)

/-- Default chunk size of the utils module (part_000):
`var chunkSize = 20 * 1024 * 1024`. -/
def utilsDefaultChunkSize : Nat := 20 * 1024 * 1024

/-- Mutable module-local state of the utils module: the `chunkSize` var. -/
structure UtilsState where
  chunkSizeVar : Nat
deriving DecidableEq

/-- State of the utils module right after it is loaded. -/
def utilsLoad : UtilsState := ⟨utilsDefaultChunkSize⟩

/-- Model of setChunkSize (part_000 lines 237-239): reassigns the
module-local `chunkSize` variable. -/
def setChunkSize (s : UtilsState) (newChunkSize : Nat) : UtilsState :=
  ⟨newChunkSize⟩

/-- The `chunkSize` binding obtained by DisFile.js through
`require("../utils")`: CommonJS copies the current value of the variable
into the `module.exports` object when utils.js finishes loading, so the
imported binding is a snapshot of the value at load time and is never
updated by later `setChunkSize` calls. -/
def requiredChunkSize : Nat := utilsLoad.chunkSizeVar

/-- Model of the DisFile constructor (second DisFile.js variant, lines
176-179): stores the webhook URL and calls setChunkSize with the
`chunkSize` argument. -/
def disFileCtor (s : UtilsState) (chunkSize : Nat) : UtilsState :=
  setChunkSize s chunkSize

/-- The `highWaterMark` that DisFile.uploadFile passes to
`fs.createReadStream` (DisFile.js line 243): the imported `chunkSize`
binding. -/
def uploadFileHighWaterMark : Nat := requiredChunkSize




/-- Model of getChunks (utils.js lines 50-80): every unit delivered by a
`data` event is wrapped into exactly one single-chunk piece stream, in
delivery order; nothing is merged or re-split and no transport traffic
occurs. -/
def getChunks (units : List (List Byte)) : List (List Byte) := units

/-- Separator-and-close text that follows one array element in the
pretty-printed `ids` array: either the final close or a comma, newline and
the remaining elements (a layout helper for the codec proofs). -/
def sepTxt : List Str → Str → Str
  | [], T => nlCh :: spCh :: spCh :: ']' :: T
  | s2 :: r2, T => ',' :: nlCh :: (itemsTxt (s2 :: r2) ++ (nlCh :: spCh :: spCh :: ']' :: T))

theorem chunksGo_length (C : Nat) (hC : 0 < C) :
    ∀ fuel B, List.length B ≤ fuel → (chunksGo C fuel B).length = (B.length + C - 1) / C := by
  intro fuel
  induction fuel with
  | zero =>
    intro B h
    have hB : B = [] := List.eq_nil_of_length_eq_zero (Nat.le_zero.mp h)
    subst hB
    simp [chunksGo]
    rw [Nat.div_eq_of_lt (by omega : C - 1 < C)]
  | succ fuel ih =>
    intro B h
    cases B with
    | nil =>
      simp [chunksGo]
      rw [Nat.div_eq_of_lt (by omega : C - 1 < C)]
    | cons b B' =>
      have hfuel : (List.drop C (b :: B')).length ≤ fuel := by
        simp only [List.length_drop, List.length_cons] at h ⊢
        omega
      simp only [chunksGo, List.length_cons, ih _ hfuel, List.length_drop]
      rcases le_or_lt (B'.length + 1) C with hle | hlt
      · have h0 : B'.length + 1 - C = 0 := by omega
        rw [h0]
        rw [Nat.div_eq_of_lt (by omega : 0 + C - 1 < C),
          Nat.div_eq_of_lt_le (by omega : 1 * C ≤ B'.length + 1 + C - 1)
            (by omega : B'.length + 1 + C - 1 < (1 + 1) * C)]
      · have h1 : B'.length + 1 - C + C - 1 = B'.length + 1 - 1 := by omega
        have h2 : B'.length + 1 + C - 1 = (B'.length + 1 - 1) + C := by omega
        rw [h1, h2, Nat.add_div_right _ hC]

theorem chunksGo_flatten (C : Nat) (hC : 0 < C) :
    ∀ fuel B, List.length B ≤ fuel → (chunksGo C fuel B).flatten = B := by
  intro fuel
  induction fuel with
  | zero =>
    intro B h
    have hB : B = [] := List.eq_nil_of_length_eq_zero (Nat.le_zero.mp h)
    subst hB; rfl
  | succ fuel ih =>
    intro B h
    cases B with
    | nil => rfl
    | cons b B' =>
      have hfuel : (List.drop C (b :: B')).length ≤ fuel := by
        simp only [List.length_drop, List.length_cons] at h ⊢
        omega
      simp only [chunksGo, List.flatten_cons, ih _ hfuel, List.take_append_drop]

/-- Chunk-count law for the model chunker. -/
theorem chunksOf_length (C : Nat) (B : List Byte) (hC : 0 < C) :
    (chunksOf C B).length = (B.length + C - 1) / C :=
  chunksGo_length C hC B.length B (Nat.le_refl _)

/-- Concatenating the pieces in emission order reproduces the payload. -/
theorem chunksOf_flatten (C : Nat) (B : List Byte) (hC : 0 < C) :
    (chunksOf C B).flatten = B :=
  chunksGo_flatten C hC B.length B (Nat.le_refl _)

theorem char_toNat_ofNat (n : Nat) (h : n < 55296) : (Char.ofNat n).toNat = n := by
  unfold Char.ofNat
  rw [dif_pos (Or.inl h : n.isValidChar)]
  rfl

theorem digitCh_toNat (m : Nat) (h : m < 10) : (digitCh m).toNat = 48 + m :=
  char_toNat_ofNat (48 + m) (by omega)

theorem isDigitCh_digitCh (m : Nat) (h : m < 10) : isDigitCh (digitCh m) = true := by
  have ht : (digitCh m).toNat = 48 + m := digitCh_toNat m h
  simp only [isDigitCh, ht, Bool.and_eq_true, decide_eq_true_eq]
  omega

theorem digitsValGo_append (a : Nat) (x y : Str) :
    digitsValGo a (x ++ y) = digitsValGo (digitsValGo a x) y := by
  induction x generalizing a with
  | nil => rfl
  | cons c x' ih =>
    rw [List.cons_append,
      show digitsValGo a (c :: (x' ++ y)) = digitsValGo (10 * a + (c.toNat - 48)) (x' ++ y) from rfl,
      show digitsValGo a (c :: x') = digitsValGo (10 * a + (c.toNat - 48)) x' from rfl]
    exact ih _

theorem digitsVal_append_digit (a : Str) (c : Char) :
    digitsVal (a ++ [c]) = 10 * digitsVal a + (c.toNat - 48) := by
  show digitsValGo 0 (a ++ [c]) = 10 * digitsValGo 0 a + (c.toNat - 48)
  rw [digitsValGo_append]
  rfl

theorem natDigitsGo_val (fuel n : Nat) (h : n < fuel) :
    digitsVal (natDigitsGo fuel n) = n := by
  induction fuel generalizing n with
  | zero => omega
  | succ fuel ih =>
    have hshow : natDigitsGo (fuel + 1) n =
        if n < 10 then [digitCh n] else natDigitsGo fuel (n / 10) ++ [digitCh (n % 10)] := rfl
    by_cases h10 : n < 10
    · rw [hshow, if_pos h10]
      have h1 : digitsVal [digitCh n] = 10 * 0 + ((digitCh n).toNat - 48) := rfl
      rw [h1, digitCh_toNat n h10]
      omega
    · have hdiv : n / 10 < fuel := by
        have := Nat.div_lt_self (by omega : 0 < n) (by omega : 1 < 10)
        omega
      rw [hshow, if_neg h10, digitsVal_append_digit, ih _ hdiv,
        digitCh_toNat (n % 10) (Nat.mod_lt n (by omega))]
      have := Nat.div_add_mod n 10
      omega

/-- Printing a natural in decimal and parsing the digits gives it back. -/
theorem natDigits_val (n : Nat) : digitsVal (natDigits n) = n :=
  natDigitsGo_val (n + 1) n (Nat.lt_succ_self n)

theorem natDigitsGo_digits (fuel n : Nat) :
    ∀ c ∈ natDigitsGo fuel n, isDigitCh c = true := by
  induction fuel generalizing n with
  | zero => intro c hc; simp [natDigitsGo] at hc
  | succ fuel ih =>
    intro c hc
    by_cases h10 : n < 10
    · simp only [natDigitsGo, if_pos h10, List.mem_singleton] at hc
      subst hc; exact isDigitCh_digitCh n h10
    · simp only [natDigitsGo, if_neg h10, List.mem_append, List.mem_singleton] at hc
      rcases hc with hc | hc
      · exact ih (n / 10) c hc
      · subst hc; exact isDigitCh_digitCh (n % 10) (Nat.mod_lt n (by omega))

theorem padStart3_digits (i : Nat) :
    ∀ c ∈ padStart3 (natDigits i), isDigitCh c = true := by
  intro c hc
  simp only [padStart3, List.mem_append, List.mem_replicate] at hc
  rcases hc with ⟨_, hc⟩ | hc
  · subst hc; exact isDigitCh_digitCh 0 (by omega)
  · exact natDigitsGo_digits (i + 1) i c hc

theorem isDigitCh_ne_usc (c : Char) (h : isDigitCh c = true) : c ≠ uscCh := by
  intro he
  subst he
  simp [isDigitCh, uscCh] at h

theorem beforeUsc_append (a b : Str) (h : ∀ c ∈ a, c ≠ uscCh) :
    beforeUsc (a ++ uscCh :: b) = a := by
  induction a with
  | nil => simp [beforeUsc]
  | cons x a' ih =>
    have hx : x ≠ uscCh := h x (by simp)
    have ih' := ih (fun c hc => h c (by simp [hc]))
    simp [beforeUsc, hx, ih']

theorem leadDigits_all (a : Str) (h : ∀ c ∈ a, isDigitCh c = true) :
    leadDigits a = a := by
  induction a with
  | nil => rfl
  | cons x a' ih =>
    have ih' := ih (fun c hc => h c (by simp [hc]))
    simp [leadDigits, h x (by simp), ih']

theorem digitsVal_replicate_zero_append (k : Nat) (l : Str) :
    digitsVal (List.replicate k (digitCh 0) ++ l) = digitsVal l := by
  induction k with
  | zero => simp
  | succ k ih =>
    have h1 : ∀ t : Str, digitsVal (digitCh 0 :: t) = digitsVal t := by
      intro t
      show digitsValGo (10 * 0 + ((digitCh 0).toNat - 48)) t = digitsValGo 0 t
      rw [digitCh_toNat 0 (by omega)]
    calc digitsVal (List.replicate (k + 1) (digitCh 0) ++ l)
        = digitsVal (digitCh 0 :: (List.replicate k (digitCh 0) ++ l)) := by
          rw [List.replicate_succ, List.cons_append]
      _ = digitsVal (List.replicate k (digitCh 0) ++ l) := h1 _
      _ = digitsVal l := ih

/-- The sort key that download recovers from the display name of piece `i`
is exactly `i`, whatever the original file name. -/
theorem nameIdx_pieceName (i : Nat) (fileName : Str) :
    nameIdx (pieceName i fileName) = i := by
  unfold nameIdx pieceName
  rw [beforeUsc_append _ _ (fun c hc => isDigitCh_ne_usc c (padStart3_digits i c hc)),
    leadDigits_all _ (padStart3_digits i)]
  unfold padStart3
  rw [digitsVal_replicate_zero_append, natDigits_val]

theorem hasTriple_cons_eq (x : Char) (l : Str) :
    hasTriple (x :: l) =
      ((decide (x = tkCh) && decide (l.take 2 = [tkCh, tkCh])) || hasTriple l) := by
  match l with
  | [] => simp [hasTriple]
  | [y] => simp [hasTriple]
  | y :: z :: r =>
    by_cases hx : x = tkCh <;> by_cases hy : y = tkCh <;> by_cases hz : z = tkCh <;>
      simp [hasTriple, hx, hy, hz, List.take]

theorem hasTriple_cons_ne (x : Char) (l : Str) (hx : x ≠ tkCh) :
    hasTriple (x :: l) = hasTriple l := by
  simp [hasTriple_cons_eq, hx]

theorem hasTriple_tail (x : Char) (l : Str) (h : hasTriple (x :: l) = false) :
    hasTriple l = false := by
  rw [hasTriple_cons_eq] at h
  exact (Bool.or_eq_false_iff.mp h).2

theorem noTick_append_hasTriple (a b : Str) (ha : noTick a = true) :
    hasTriple (a ++ b) = hasTriple b := by
  induction a with
  | nil => rfl
  | cons x a' ih =>
    simp only [noTick, List.all_cons, Bool.and_eq_true, Bool.not_eq_true',
      decide_eq_false_iff_not] at ha
    rw [List.cons_append, hasTriple_cons_ne x _ ha.1]
    exact ih (by simp [noTick, ha.2])

theorem noTick_hasTriple (l : Str) (h : noTick l = true) : hasTriple l = false := by
  have := noTick_append_hasTriple l [] h
  simpa using this

theorem take2_ne_of_head (l : Str) (h : l.head? ≠ some tkCh) :
    l.take 2 ≠ [tkCh, tkCh] := by
  match l with
  | [] => simp
  | [y] => simp
  | y :: z :: r =>
    intro he
    simp [List.take] at he
    exact h (by simp [he.1])

theorem take2_tick_cons (l : Str) :
    (tkCh :: l).take 2 = [tkCh, tkCh] ↔ l.head? = some tkCh := by
  match l with
  | [] => simp
  | y :: r => simp [List.take]

theorem escapeCh_ne_nil (c : Char) : escapeCh c ≠ [] := by
  unfold escapeCh
  split_ifs <;> simp

theorem head_escapeCh_ne (c : Char) (hc : c ≠ tkCh) (r : Str) :
    (escapeCh c ++ r).head? ≠ some tkCh := by
  unfold escapeCh
  split_ifs <;> simp_all [bslCh, tkCh, Char.ofNat]

theorem escapeCh_tk : escapeCh tkCh = [tkCh] := by decide

theorem noTick_escapeCh (c : Char) (hc : c ≠ tkCh) : noTick (escapeCh c) = true := by
  have hhex : ∀ n, n < 16 → (!decide (hexDigitCh n = tkCh)) = true := by decide
  unfold escapeCh
  split_ifs with h1 h2 h3 h4 h5 h6 h7 h8
  · decide
  · decide
  · decide
  · decide
  · decide
  · decide
  · decide
  · simp only [noTick, List.all_cons, List.all_nil, Bool.and_eq_true, Bool.and_true]
    have hdiv : c.toNat / 16 < 2 := Nat.div_lt_of_lt_mul (by omega)
    exact ⟨by decide, by decide, by decide, by decide, hhex _ (by omega),
      hhex _ (Nat.mod_lt _ (by omega))⟩
  · simp [noTick, hc]

theorem head_escStr_append (s t : Str) (hs : s.head? ≠ some tkCh)
    (ht : t.head? ≠ some tkCh) : (escStr s ++ t).head? ≠ some tkCh := by
  match s with
  | [] =>
    rw [show escStr [] = [] from rfl, List.nil_append]
    exact ht
  | c :: s' =>
    have hc : c ≠ tkCh := by simpa using hs
    show ((escapeCh c ++ escStr s') ++ t).head? ≠ some tkCh
    rw [List.append_assoc]
    exact head_escapeCh_ne c hc _

theorem escStr_tick_cons (s : Str) : escStr (tkCh :: s) = tkCh :: escStr s := by
  rw [show escStr (tkCh :: s) = escapeCh tkCh ++ escStr s from rfl, escapeCh_tk]
  rfl

theorem hasTriple_escStr_append (s t : Str) (hs : hasTriple s = false)
    (ht : hasTriple t = false) (hh : t.head? ≠ some tkCh) :
    hasTriple (escStr s ++ t) = false := by
  induction s with
  | nil =>
    rw [show escStr [] = [] from rfl, List.nil_append]
    exact ht
  | cons c s' ih =>
    have hs' : hasTriple s' = false := hasTriple_tail c s' hs
    by_cases hc : c = tkCh
    · subst hc
      have htk2 : (escStr s' ++ t).take 2 ≠ [tkCh, tkCh] := by
        cases s' with
        | nil =>
          refine take2_ne_of_head _ ?_
          rw [show escStr [] = [] from rfl, List.nil_append]
          exact hh
        | cons d s'' =>
          by_cases hd : d = tkCh
          · subst hd
            have hs2 := hs
            rw [hasTriple_cons_eq] at hs2
            simp only [decide_True, Bool.true_and, Bool.or_eq_false_iff,
              decide_eq_false_iff_not] at hs2
            have hhead : s''.head? ≠ some tkCh := by
              intro hhead
              exact hs2.1 ((take2_tick_cons s'').mpr hhead)
            rw [escStr_tick_cons, List.cons_append]
            intro he
            exact head_escStr_append s'' t hhead hh ((take2_tick_cons _).mp he)
          · exact take2_ne_of_head _ (head_escStr_append (d :: s'') t (by simpa using hd) hh)
      rw [escStr_tick_cons, List.cons_append, hasTriple_cons_eq]
      simp [ih hs', htk2]
    · show hasTriple ((escapeCh c ++ escStr s') ++ t) = false
      rw [List.append_assoc, noTick_append_hasTriple _ _ (noTick_escapeCh c hc)]
      exact ih hs'


theorem headQ_ne (X : Str) : (qCh :: X).head? ≠ some tkCh := by
  simp only [List.head?_cons]
  decide

theorem headNl_ne (X : Str) : (nlCh :: X).head? ≠ some tkCh := by
  simp only [List.head?_cons]
  decide

theorem peelItemPre (X : Str) :
    hasTriple (spCh :: spCh :: spCh :: spCh :: qCh :: X) = hasTriple X :=
  noTick_append_hasTriple [spCh, spCh, spCh, spCh, qCh] X (by decide)

theorem peelQuote (X : Str) : hasTriple (qCh :: X) = hasTriple X :=
  noTick_append_hasTriple [qCh] X (by decide)

theorem peelSep (X : Str) : hasTriple (qCh :: ',' :: nlCh :: X) = hasTriple X :=
  noTick_append_hasTriple [qCh, ',', nlCh] X (by decide)

theorem peelArrOpen (X : Str) : hasTriple ('[' :: nlCh :: X) = hasTriple X :=
  noTick_append_hasTriple ['[', nlCh] X (by decide)

theorem peelArrEmpty (X : Str) : hasTriple ('[' :: ']' :: X) = hasTriple X :=
  noTick_append_hasTriple ['[', ']'] X (by decide)

theorem peelArrClose (X : Str) :
    hasTriple (nlCh :: spCh :: spCh :: ']' :: X) = hasTriple X :=
  noTick_append_hasTriple [nlCh, spCh, spCh, ']'] X (by decide)

theorem peelBodyPre (X : Str) :
    hasTriple (lbrCh :: nlCh :: spCh :: spCh :: qCh :: 'f' :: 'i' :: 'l' :: 'e' :: 'n' ::
      'a' :: 'm' :: 'e' :: qCh :: ':' :: spCh :: qCh :: X) = hasTriple X :=
  noTick_append_hasTriple
    [lbrCh, nlCh, spCh, spCh, qCh, 'f', 'i', 'l', 'e', 'n', 'a', 'm', 'e', qCh, ':', spCh, qCh]
    X (by decide)

theorem peelBodyMid (X : Str) :
    hasTriple (qCh :: ',' :: nlCh :: spCh :: spCh :: qCh :: 'i' :: 'd' :: 's' :: qCh ::
      ':' :: spCh :: X) = hasTriple X :=
  noTick_append_hasTriple
    [qCh, ',', nlCh, spCh, spCh, qCh, 'i', 'd', 's', qCh, ':', spCh] X (by decide)

theorem hasTriple_itemsTxt_append (ids : List Str) (t : Str)
    (hi : ∀ id ∈ ids, hasTriple id = false)
    (ht : hasTriple t = false) (hh : t.head? ≠ some tkCh) :
    hasTriple (itemsTxt ids ++ t) = false := by
  induction ids with
  | nil => simpa [itemsTxt] using ht
  | cons s rest ih =>
    cases rest with
    | nil =>
      show hasTriple (itemTxt s ++ t) = false
      simp only [itemTxt, List.cons_append, List.append_assoc, List.singleton_append,
        List.nil_append]
      rw [peelItemPre]
      exact hasTriple_escStr_append s (qCh :: t) (hi s (by simp))
        (by rw [peelQuote]; exact ht) (headQ_ne t)
    | cons s2 rest2 =>
      show hasTriple ((itemTxt s ++ ',' :: nlCh :: itemsTxt (s2 :: rest2)) ++ t) = false
      simp only [itemTxt, List.cons_append, List.append_assoc, List.singleton_append,
        List.nil_append]
      rw [peelItemPre]
      exact hasTriple_escStr_append s _ (hi s (by simp))
        (by rw [peelSep]; exact ih (fun id hid => hi id (by simp [hid])))
        (headQ_ne _)

theorem hasTriple_idsTxt_append (ids : List Str) (t : Str)
    (hi : ∀ id ∈ ids, hasTriple id = false)
    (ht : hasTriple t = false) (hh : t.head? ≠ some tkCh) :
    hasTriple (idsTxt ids ++ t) = false := by
  cases ids with
  | nil =>
    show hasTriple ('[' :: ']' :: t) = false
    rw [peelArrEmpty]
    exact ht
  | cons s rest =>
    show hasTriple (('[' :: nlCh :: (itemsTxt (s :: rest) ++ [nlCh, spCh, spCh, ']'])) ++ t) = false
    simp only [List.cons_append, List.append_assoc, List.nil_append]
    rw [peelArrOpen]
    exact hasTriple_itemsTxt_append (s :: rest) _ hi
      (by rw [peelArrClose]; exact ht) (headNl_ne _)

theorem hasTriple_manifestBody (name : Str) (ids : List Str)
    (hn : hasTriple name = false) (hi : ∀ id ∈ ids, hasTriple id = false) :
    hasTriple (manifestBody name ids) = false := by
  simp only [manifestBody, keyFilenameTok, keyIdsTok, List.cons_append, List.append_assoc,
    List.nil_append, List.singleton_append]
  rw [peelBodyPre]
  exact hasTriple_escStr_append name _ hn
    (by
      rw [peelBodyMid]
      exact hasTriple_idsTxt_append ids [nlCh, rbrCh] hi (by decide) (by decide))
    (headQ_ne _)

theorem getLast?_manifestBody (name : Str) (ids : List Str) :
    (manifestBody name ids).getLast? = some rbrCh := by
  rw [manifestBody, List.getLast?_append]
  rfl

theorem removeTicks_append_ticks (l : Str) (h1 : hasTriple l = false)
    (h2 : l.getLast? ≠ some tkCh) :
    removeTicks (l ++ [tkCh, tkCh, tkCh]) = l := by
  induction l with
  | nil => decide
  | cons x l' ih =>
    cases l' with
    | nil =>
      have hx : x ≠ tkCh := by simpa using h2
      show removeTicks (x :: tkCh :: tkCh :: tkCh :: []) = [x]
      rw [show removeTicks (x :: tkCh :: tkCh :: tkCh :: []) =
        if x = tkCh ∧ tkCh = tkCh ∧ tkCh = tkCh then removeTicks ([tkCh] : Str)
        else x :: removeTicks (tkCh :: tkCh :: tkCh :: []) from rfl]
      rw [if_neg (by simp [hx])]
      rw [show removeTicks (tkCh :: tkCh :: tkCh :: []) = [] from by decide]
    | cons y l'' =>
      cases l'' with
      | nil =>
        have hy : y ≠ tkCh := by simpa using h2
        show removeTicks (x :: y :: tkCh :: tkCh :: tkCh :: []) = [x, y]
        rw [show removeTicks (x :: y :: tkCh :: tkCh :: tkCh :: []) =
          if x = tkCh ∧ y = tkCh ∧ tkCh = tkCh then removeTicks ([tkCh, tkCh] : Str)
          else x :: removeTicks (y :: tkCh :: tkCh :: tkCh :: []) from rfl]
        rw [if_neg (by simp [hy])]
        have ihy := ih rfl (by simp [hy])
        exact congrArg (fun t => x :: t) ihy
      | cons z m3 =>
        have hw : ¬(x = tkCh ∧ y = tkCh ∧ z = tkCh) := by
          rintro ⟨hx, hy, hz⟩
          subst hx; subst hy; subst hz
          simp [hasTriple] at h1
        show removeTicks (x :: y :: z :: (m3 ++ [tkCh, tkCh, tkCh])) = x :: y :: z :: m3
        rw [show removeTicks (x :: y :: z :: (m3 ++ [tkCh, tkCh, tkCh])) =
          if x = tkCh ∧ y = tkCh ∧ z = tkCh then removeTicks (m3 ++ [tkCh, tkCh, tkCh])
          else x :: removeTicks (y :: z :: (m3 ++ [tkCh, tkCh, tkCh])) from rfl]
        rw [if_neg hw]
        have ihr := ih (hasTriple_tail _ _ h1)
          (by rw [List.getLast?_cons_cons] at h2; exact h2)
        exact congrArg (fun t => x :: t) ihr

theorem removeTicks_encodeManifest (name : Str) (ids : List Str)
    (hn : hasTriple name = false) (hi : ∀ id ∈ ids, hasTriple id = false) :
    removeTicks (encodeManifest name ids) = manifestBody name ids := by
  have hb := hasTriple_manifestBody name ids hn hi
  have hl := getLast?_manifestBody name ids
  show removeTicks (tkCh :: tkCh :: tkCh :: (manifestBody name ids ++ [tkCh, tkCh, tkCh])) = _
  rw [show removeTicks (tkCh :: tkCh :: tkCh :: (manifestBody name ids ++ [tkCh, tkCh, tkCh])) =
    if tkCh = tkCh ∧ tkCh = tkCh ∧ tkCh = tkCh then
      removeTicks (manifestBody name ids ++ [tkCh, tkCh, tkCh])
    else tkCh :: removeTicks (tkCh :: tkCh :: (manifestBody name ids ++ [tkCh, tkCh, tkCh]))
    from rfl]
  rw [if_pos ⟨rfl, rfl, rfl⟩]
  exact removeTicks_append_ticks _ hb (by rw [hl]; decide)


theorem hexVal_hexDigitCh : ∀ n, n < 16 → hexVal (hexDigitCh n) = some n := by decide

theorem parseStrBody_quote (rest : Str) : parseStrBody (qCh :: rest) = some ([], rest) := by
  rw [parseStrBody.eq_def]
  simp

theorem parseStrBody_plain (c : Char) (rest : Str) (h1 : c ≠ qCh) (h2 : c ≠ bslCh) :
    parseStrBody (c :: rest) = (parseStrBody rest).map (fun p => (c :: p.1, p.2)) := by
  rw [parseStrBody.eq_def]
  simp [h1, h2]

theorem parseStrBody_esc (e d : Char) (rest : Str) (he : e ≠ 'u') (hd : unescCh e = some d) :
    parseStrBody (bslCh :: e :: rest) = (parseStrBody rest).map (fun p => (d :: p.1, p.2)) := by
  rw [parseStrBody.eq_def]
  simp [he, hd, show (bslCh = qCh) = False from by decide]

theorem parseStrBody_u (u1 u2 u3 u4 : Char) (rest : Str) (a b c2 d : Nat)
    (e1 : hexVal u1 = some a) (e2 : hexVal u2 = some b) (e3 : hexVal u3 = some c2)
    (e4 : hexVal u4 = some d) :
    parseStrBody (bslCh :: 'u' :: u1 :: u2 :: u3 :: u4 :: rest) =
      (parseStrBody rest).map
        (fun p => (Char.ofNat (((a * 16 + b) * 16 + c2) * 16 + d) :: p.1, p.2)) := by
  rw [parseStrBody.eq_def]
  simp [e1, e2, e3, e4, show (bslCh = qCh) = False from by decide]

/-- Parsing a JSON-escaped string literal recovers the original string:
the printer escape of `JSON.stringify` and the string production of
`JSON.parse` are mutually inverse. -/
theorem parseStrBody_escStr (s r : Str) :
    parseStrBody (escStr s ++ qCh :: r) = some (s, r) := by
  induction s with
  | nil => exact parseStrBody_quote r
  | cons c s' ih =>
    rw [show escStr (c :: s') = escapeCh c ++ escStr s' from rfl, List.append_assoc]
    unfold escapeCh
    split_ifs with hq hb h8 h9 hn h12 h13 hctl
    · subst hq
      rw [show ([bslCh, qCh] : Str) ++ (escStr s' ++ qCh :: r) =
        bslCh :: qCh :: (escStr s' ++ qCh :: r) from rfl]
      rw [parseStrBody_esc qCh qCh _ (by decide) (by decide), ih]
      rfl
    · subst hb
      rw [show ([bslCh, bslCh] : Str) ++ (escStr s' ++ qCh :: r) =
        bslCh :: bslCh :: (escStr s' ++ qCh :: r) from rfl]
      rw [parseStrBody_esc bslCh bslCh _ (by decide) (by decide), ih]
      rfl
    · subst h8
      rw [show ([bslCh, 'b'] : Str) ++ (escStr s' ++ qCh :: r) =
        bslCh :: 'b' :: (escStr s' ++ qCh :: r) from rfl]
      rw [parseStrBody_esc 'b' (Char.ofNat 8) _ (by decide) (by decide), ih]
      rfl
    · subst h9
      rw [show ([bslCh, 't'] : Str) ++ (escStr s' ++ qCh :: r) =
        bslCh :: 't' :: (escStr s' ++ qCh :: r) from rfl]
      rw [parseStrBody_esc 't' (Char.ofNat 9) _ (by decide) (by decide), ih]
      rfl
    · subst hn
      rw [show ([bslCh, 'n'] : Str) ++ (escStr s' ++ qCh :: r) =
        bslCh :: 'n' :: (escStr s' ++ qCh :: r) from rfl]
      rw [parseStrBody_esc 'n' nlCh _ (by decide) (by decide), ih]
      rfl
    · subst h12
      rw [show ([bslCh, 'f'] : Str) ++ (escStr s' ++ qCh :: r) =
        bslCh :: 'f' :: (escStr s' ++ qCh :: r) from rfl]
      rw [parseStrBody_esc 'f' (Char.ofNat 12) _ (by decide) (by decide), ih]
      rfl
    · subst h13
      rw [show ([bslCh, 'r'] : Str) ++ (escStr s' ++ qCh :: r) =
        bslCh :: 'r' :: (escStr s' ++ qCh :: r) from rfl]
      rw [parseStrBody_esc 'r' (Char.ofNat 13) _ (by decide) (by decide), ih]
      rfl
    · have hdiv : c.toNat / 16 < 16 := Nat.div_lt_of_lt_mul (by omega)
      have hmod : c.toNat % 16 < 16 := Nat.mod_lt _ (by omega)
      rw [show ([bslCh, 'u', digitCh 0, digitCh 0, hexDigitCh (c.toNat / 16),
          hexDigitCh (c.toNat % 16)] : Str) ++ (escStr s' ++ qCh :: r) =
        bslCh :: 'u' :: digitCh 0 :: digitCh 0 :: hexDigitCh (c.toNat / 16) ::
          hexDigitCh (c.toNat % 16) :: (escStr s' ++ qCh :: r) from rfl]
      rw [parseStrBody_u _ _ _ _ _ 0 0 (c.toNat / 16) (c.toNat % 16)
        (by decide) (by decide) (hexVal_hexDigitCh _ hdiv) (hexVal_hexDigitCh _ hmod), ih]
      have hc : Char.ofNat (((0 * 16 + 0) * 16 + c.toNat / 16) * 16 + c.toNat % 16) = c := by
        have hval : ((0 * 16 + 0) * 16 + c.toNat / 16) * 16 + c.toNat % 16 = c.toNat := by
          have := Nat.div_add_mod c.toNat 16
          omega
        rw [hval, Char.ofNat_toNat]
      rw [hc]
      rfl
    · rw [show ([c] : Str) ++ (escStr s' ++ qCh :: r) = c :: (escStr s' ++ qCh :: r) from rfl]
      rw [parseStrBody_plain c _ hq hb, ih]
      rfl

theorem skipWs_ws (c : Char) (X : Str) (h : isJsonWs c = true) :
    skipWs (c :: X) = skipWs X := by
  simp [skipWs, h]

theorem skipWs_nws (c : Char) (X : Str) (h : isJsonWs c = false) :
    skipWs (c :: X) = c :: X := by
  simp [skipWs, h]

theorem expectCh_cons_ws (c x : Char) (X : Str) (h : isJsonWs x = true) :
    expectCh c (x :: X) = expectCh c X := by
  unfold expectCh
  rw [skipWs_ws x X h]

theorem expectCh_hit (c : Char) (X : Str) (h : isJsonWs c = false) :
    expectCh c (c :: X) = some X := by
  unfold expectCh
  rw [skipWs_nws c X h]
  simp

theorem parseIdsLoop_succ (fuel : Nat) (s : Str) :
    parseIdsLoop (fuel + 1) s =
      (match skipWs s with
       | c :: r =>
         if c = qCh then
           match parseStrBody r with
           | some (x, r2) =>
             match skipWs r2 with
             | d :: r3 =>
               if d = ',' then (parseIdsLoop fuel r3).map (fun p => (x :: p.1, p.2))
               else if d = ']' then some ([x], r3) else none
             | [] => none
           | none => none
         else none
       | [] => none) := rfl

theorem parseIdsLoop_ws (fuel : Nat) (c : Char) (X : Str) (h : isJsonWs c = true) :
    parseIdsLoop (fuel + 1) (c :: X) = parseIdsLoop (fuel + 1) X := by
  rw [parseIdsLoop_succ, parseIdsLoop_succ, skipWs_ws c X h]

theorem parseIdsLoop_step (fuel : Nat) (s Y : Str) :
    parseIdsLoop (fuel + 1) (qCh :: (escStr s ++ (qCh :: Y))) =
      (match skipWs Y with
       | d :: r3 =>
         if d = ',' then (parseIdsLoop fuel r3).map (fun p => (s :: p.1, p.2))
         else if d = ']' then some ([s], r3) else none
       | [] => none) := by
  rw [parseIdsLoop_succ, skipWs_nws qCh _ (by decide)]
  simp [parseStrBody_escStr]

theorem itemsTxt_close (x : Str) (r : List Str) (T : Str) :
    itemsTxt (x :: r) ++ (nlCh :: spCh :: spCh :: ']' :: T) =
      spCh :: spCh :: spCh :: spCh :: qCh :: (escStr x ++ (qCh :: sepTxt r T)) := by
  cases r with
  | nil =>
    simp [itemsTxt, itemTxt, sepTxt, List.cons_append, List.append_assoc,
      List.singleton_append, List.nil_append]
  | cons s2 r2 =>
    simp [itemsTxt, itemTxt, sepTxt, List.cons_append, List.append_assoc,
      List.singleton_append, List.nil_append]

theorem parseIdsLoop_last (fuel : Nat) (s T : Str) :
    parseIdsLoop (fuel + 1) (qCh :: (escStr s ++ (qCh :: sepTxt [] T))) = some ([s], T) := by
  rw [parseIdsLoop_step]
  rw [show sepTxt [] T = nlCh :: spCh :: spCh :: ']' :: T from rfl]
  rw [skipWs_ws nlCh _ (by decide), skipWs_ws spCh _ (by decide), skipWs_ws spCh _ (by decide),
    skipWs_nws ']' _ (by decide)]
  simp [show ((']' : Char) = ',') = False from by decide]

theorem parseIdsLoop_cons (fuel : Nat) (s s2 : Str) (r2 : List Str) (T : Str) :
    parseIdsLoop (fuel + 1) (qCh :: (escStr s ++ (qCh :: sepTxt (s2 :: r2) T))) =
      (parseIdsLoop fuel
          (nlCh :: (itemsTxt (s2 :: r2) ++ (nlCh :: spCh :: spCh :: ']' :: T)))).map
        (fun p => (s :: p.1, p.2)) := by
  rw [parseIdsLoop_step]
  rw [show sepTxt (s2 :: r2) T =
    ',' :: nlCh :: (itemsTxt (s2 :: r2) ++ (nlCh :: spCh :: spCh :: ']' :: T)) from rfl]
  rw [skipWs_nws ',' _ (by decide)]
  simp

theorem parseIdsLoop_go (r : List Str) :
    ∀ (s : Str) (T : Str) (fuel : Nat), r.length + 1 ≤ fuel →
      parseIdsLoop fuel (qCh :: (escStr s ++ (qCh :: sepTxt r T))) = some (s :: r, T) := by
  induction r with
  | nil =>
    intro s T fuel hfuel
    cases fuel with
    | zero => omega
    | succ f => exact parseIdsLoop_last f s T
  | cons s2 r2 ih =>
    intro s T fuel hfuel
    cases fuel with
    | zero => omega
    | succ f =>
      rw [parseIdsLoop_cons]
      obtain ⟨g, rfl⟩ : ∃ g, f = g + 1 := ⟨f - 1, by simp at hfuel; omega⟩
      rw [parseIdsLoop_ws g nlCh _ (by decide)]
      rw [itemsTxt_close s2 r2 T]
      rw [parseIdsLoop_ws g spCh _ (by decide), parseIdsLoop_ws g spCh _ (by decide),
        parseIdsLoop_ws g spCh _ (by decide), parseIdsLoop_ws g spCh _ (by decide)]
      rw [ih s2 T (g + 1) (by simp at hfuel ⊢; omega)]
      rfl

theorem wsNl : isJsonWs nlCh = true := by decide

theorem wsSp : isJsonWs spCh = true := by decide

theorem nwsLbr : isJsonWs lbrCh = false := by decide

theorem nwsRbr : isJsonWs rbrCh = false := by decide

theorem nwsQ : isJsonWs qCh = false := by decide

theorem nwsColon : isJsonWs ':' = false := by decide

theorem nwsComma : isJsonWs ',' = false := by decide

theorem nwsLbrack : isJsonWs '[' = false := by decide

theorem nwsRbrack : isJsonWs ']' = false := by decide

theorem skipWs_nil : skipWs [] = [] := rfl

theorem stripLead_pre : ∀ p X, stripLead p (p ++ X) = some X := by
  intro p
  induction p with
  | nil => intro X; rfl
  | cons c p' ih => intro X; simp [stripLead, ih]

theorem skipWs_keyF (X : Str) : skipWs (keyFilenameTok ++ X) = keyFilenameTok ++ X := by
  rw [show keyFilenameTok ++ X =
    qCh :: (['f', 'i', 'l', 'e', 'n', 'a', 'm', 'e', qCh] ++ X) from rfl]
  rw [skipWs_nws qCh _ nwsQ]

theorem skipWs_keyIds (X : Str) : skipWs (keyIdsTok ++ X) = keyIdsTok ++ X := by
  rw [show keyIdsTok ++ X = qCh :: (['i', 'd', 's', qCh] ++ X) from rfl]
  rw [skipWs_nws qCh _ nwsQ]

theorem itemsTxt_length_ge : ∀ ids : List Str, ids.length ≤ (itemsTxt ids).length := by
  intro ids
  induction ids with
  | nil => simp [itemsTxt]
  | cons s rest ih =>
    cases rest with
    | nil => simp [itemsTxt, itemTxt]
    | cons s2 r2 =>
      simp only [itemsTxt, itemTxt, List.length_cons, List.length_append] at ih ⊢
      omega

theorem idsTxt_length_ge (ids : List Str) : ids.length ≤ (idsTxt ids).length := by
  cases ids with
  | nil => simp [idsTxt]
  | cons s rest =>
    have := itemsTxt_length_ge (s :: rest)
    simp only [idsTxt, List.length_cons, List.length_append] at this ⊢
    omega

theorem parseIds_layout (ids : List Str) (Y : Str) (fuel : Nat)
    (hfuel : ids.length + 1 ≤ fuel) :
    parseIds fuel (spCh :: (idsTxt ids ++ Y)) = some (ids, Y) := by
  cases ids with
  | nil =>
    unfold parseIds
    rw [show idsTxt [] ++ Y = '[' :: ']' :: Y from rfl]
    rw [expectCh_cons_ws '[' spCh _ wsSp, expectCh_hit '[' _ nwsLbrack]
    show (match skipWs (']' :: Y) with
          | d :: r2 => if d = ']' then some ([], r2) else parseIdsLoop fuel (d :: r2)
          | [] => none) = some ([], Y)
    rw [skipWs_nws ']' Y nwsRbrack]
    simp
  | cons s rest =>
    unfold parseIds
    rw [show idsTxt (s :: rest) ++ Y =
      '[' :: nlCh :: (itemsTxt (s :: rest) ++ (nlCh :: spCh :: spCh :: ']' :: Y)) from by
        simp [idsTxt, List.cons_append, List.append_assoc]]
    rw [expectCh_cons_ws '[' spCh _ wsSp, expectCh_hit '[' _ nwsLbrack]
    show (match skipWs (nlCh :: (itemsTxt (s :: rest) ++ (nlCh :: spCh :: spCh :: ']' :: Y))) with
          | d :: r2 => if d = ']' then some ([], r2) else parseIdsLoop fuel (d :: r2)
          | [] => none) = some (s :: rest, Y)
    rw [skipWs_ws nlCh _ wsNl, itemsTxt_close s rest Y]
    rw [skipWs_ws spCh _ wsSp, skipWs_ws spCh _ wsSp, skipWs_ws spCh _ wsSp,
      skipWs_ws spCh _ wsSp, skipWs_nws qCh _ nwsQ]
    show (if (qCh : Char) = ']' then some ([], escStr s ++ (qCh :: sepTxt rest Y))
          else parseIdsLoop fuel (qCh :: (escStr s ++ (qCh :: sepTxt rest Y)))) =
        some (s :: rest, Y)
    rw [if_neg (by decide)]
    exact parseIdsLoop_go rest s Y fuel (by simp at hfuel; omega)


/-- Parsing the exact pretty-printed manifest body recovers the file name
and the id list. -/
theorem parseManifestDoc_body (name : Str) (ids : List Str) :
    parseManifestDoc (manifestBody name ids) = some (name, ids) := by
  have hb : manifestBody name ids =
      lbrCh :: nlCh :: spCh :: spCh :: (keyFilenameTok ++ (':' :: spCh :: qCh ::
        (escStr name ++ (qCh :: ',' :: nlCh :: spCh :: spCh :: (keyIdsTok ++ (':' :: spCh ::
          (idsTxt ids ++ (nlCh :: rbrCh :: [])))))))) := by
    simp [manifestBody, List.cons_append, List.append_assoc, List.nil_append]
  rw [hb]
  unfold parseManifestDoc
  simp only [expectCh_hit, expectCh_cons_ws, skipWs_ws, skipWs_nws, skipWs_keyF, skipWs_keyIds,
    skipWs_nil, stripLead_pre, parseStrBody_escStr, Option.some_bind,
    wsNl, wsSp, nwsLbr, nwsRbr, nwsQ, nwsColon, nwsComma, nwsLbrack, nwsRbrack]
  rw [parseIds_layout ids (nlCh :: rbrCh :: []) _ (by
    have := idsTxt_length_ge ids
    simp only [List.length_cons, List.length_append]
    omega)]
  simp only [Option.some_bind, expectCh_cons_ws, expectCh_hit, wsNl, nwsRbr, skipWs_nil]
  simp

/-- Decode inverts encode whenever neither the file name nor any id
contains three consecutive backticks (the code-block delimiter). -/
theorem decodeManifest_encodeManifest (name : Str) (ids : List Str)
    (hn : hasTriple name = false) (hi : ∀ id ∈ ids, hasTriple id = false) :
    decodeManifest (encodeManifest name ids) = some (name, ids) := by
  unfold decodeManifest
  rw [removeTicks_encodeManifest name ids hn hi, parseManifestDoc_body]

theorem storeFind_pieces (hdl : Nat → Str) (f : Nat → Message) (l : List Nat) (j : Nat)
    (hj : j ∈ l) (hinj : ∀ i ∈ l, hdl i = hdl j → i = j) :
    storeFind (l.map (fun i => (hdl i, f i))) (hdl j) = some (f j) := by
  induction l with
  | nil => simp at hj
  | cons i l' ih =>
    by_cases hij : hdl i = hdl j
    · have : i = j := hinj i (by simp) hij
      subst this
      simp [storeFind, hij]
    · have hj' : j ∈ l' := by
        rcases List.mem_cons.mp hj with h | h
        · exact absurd (by rw [h]) hij
        · exact h
      simp only [List.map_cons, storeFind, if_neg hij]
      exact ih hj' (fun i hi2 => hinj i (by simp [hi2]))

theorem fetchPieces_map (store : Store) (g : Nat → Str) (F : Nat → Str × List Byte)
    (l : List Nat) (h : ∀ i ∈ l, lookupPiece store (g i) = some (F i)) :
    fetchPieces store (l.map g) = some (l.map F) := by
  induction l with
  | nil => rfl
  | cons i l' ih =>
    simp only [List.map_cons, fetchPieces, h i (by simp), ih (fun i hi2 => h i (by simp [hi2]))]

theorem sortFiles_perm (files : List (Str × List Byte)) : (sortFiles files).Perm files :=
  List.perm_insertionSort _ _

theorem sortFiles_sorted_le (files : List (Str × List Byte)) :
    List.Sorted (fun a b => nameIdx a.1 ≤ nameIdx b.1) (sortFiles files) := by
  haveI : IsTotal (Str × List Byte) (fun a b => nameIdx a.1 ≤ nameIdx b.1) :=
    ⟨fun a b => Nat.le_total _ _⟩
  haveI : IsTrans (Str × List Byte) (fun a b => nameIdx a.1 ≤ nameIdx b.1) :=
    ⟨fun a b c => Nat.le_trans⟩
  exact List.sorted_insertionSort _ _

theorem sorted_lt_of_sorted_le_nodup (l : List (Str × List Byte))
    (hle : List.Sorted (fun a b => nameIdx a.1 ≤ nameIdx b.1) l)
    (hnodup : (l.map (fun f => nameIdx f.1)).Nodup) :
    List.Sorted (fun a b => nameIdx a.1 < nameIdx b.1) l := by
  have hne : l.Pairwise (fun a b => nameIdx a.1 ≠ nameIdx b.1) := List.pairwise_map.mp hnodup
  exact (hle.and hne).imp (fun h => Nat.lt_of_le_of_ne h.1 h.2)

theorem sortFiles_eq_target (files target : List (Str × List Byte))
    (hperm : files.Perm target)
    (hsorted : List.Sorted (fun a b => nameIdx a.1 < nameIdx b.1) target) :
    sortFiles files = target := by
  have hnt : (target.map (fun f => nameIdx f.1)).Nodup :=
    List.pairwise_map.mpr (hsorted.imp (fun h => Nat.ne_of_lt h))
  have hout : (sortFiles files).Perm target := (sortFiles_perm files).trans hperm
  have hnout : ((sortFiles files).map (fun f => nameIdx f.1)).Nodup :=
    ((hout.map _).nodup_iff).mpr hnt
  have hsout := sorted_lt_of_sorted_le_nodup _ (sortFiles_sorted_le files) hnout
  haveI : IsAntisymm (Str × List Byte) (fun a b => nameIdx a.1 < nameIdx b.1) :=
    ⟨fun a b h1 h2 => absurd (Nat.lt_trans h1 h2) (Nat.lt_irrefl _)⟩
  exact List.eq_of_perm_of_sorted hout hsout hsorted

theorem sorted_range_map (n : Nat) (F : Nat → Str × List Byte)
    (hkey : ∀ i < n, nameIdx (F i).1 = i) :
    List.Sorted (fun a b => nameIdx a.1 < nameIdx b.1) ((List.range n).map F) := by
  refine List.pairwise_map.mpr ?_
  refine (List.pairwise_lt_range n).imp_of_mem ?_
  intro a b ha hb hab
  rw [hkey a (List.mem_range.mp ha), hkey b (List.mem_range.mp hb)]
  exact hab

theorem map_getD_range (l : List (List Byte)) :
    (List.range l.length).map (fun i => l.getD i []) = l := by
  induction l with
  | nil => rfl
  | cons x xs ih =>
    simp only [List.length_cons, List.range_succ_eq_map, List.map_cons, List.map_map,
      List.getD_cons_zero]
    refine congrArg (fun t => x :: t) ?_
    have : ((fun i => (x :: xs).getD i []) ∘ Nat.succ) = fun i => xs.getD i [] := by
      funext i
      simp [List.getD_cons_succ]
    rw [this, ih]

/-- End-to-end success path: after a fully successful upload of payload
`B`, downloading via the stored primary id returns exactly `B`, for every
completion order `perm` of the concurrent piece uploads.  The webhook is
assumed to assign distinct piece ids that differ from the primary id and
contain no triple-backtick sequence (Discord ids are decimal digit
strings). -/
theorem download_uploadStore (C : Nat) (B : List Byte) (name : Str) (hdl : Nat → Str)
    (primary : Str) (perm : List Nat)
    (hC : 0 < C)
    (hperm : perm.Perm (List.range (chunksOf C B).length))
    (hinj : ∀ i < (chunksOf C B).length, ∀ j < (chunksOf C B).length, hdl i = hdl j → i = j)
    (hpr : ∀ i < (chunksOf C B).length, hdl i ≠ primary)
    (hnt : ∀ i < (chunksOf C B).length, hasTriple (hdl i) = false)
    (hname : hasTriple name = false) :
    download (uploadStore C B name hdl primary perm) primary = some B := by
  have h1 : storeFind (uploadStore C B name hdl primary perm) primary =
      some (Message.text (encodeManifest name (perm.map hdl))) := by
    simp [uploadStore, storeFind]
  have hidsperm : ∀ id ∈ perm.map hdl, hasTriple id = false := by
    intro id hid
    rcases List.mem_map.mp hid with ⟨i, hi, rfl⟩
    exact hnt i (List.mem_range.mp (hperm.mem_iff.mp hi))
  have h2 : decodeManifest (encodeManifest name (perm.map hdl)) = some (name, perm.map hdl) :=
    decodeManifest_encodeManifest _ _ hname hidsperm
  have h3 : ∀ i ∈ perm, lookupPiece (uploadStore C B name hdl primary perm) (hdl i) =
      some (pieceName i name, (chunksOf C B).getD i []) := by
    intro i hi
    have hin : i < (chunksOf C B).length := List.mem_range.mp (hperm.mem_iff.mp hi)
    have hfind : storeFind (uploadStore C B name hdl primary perm) (hdl i) =
        some (Message.piece (pieceName i name) ((chunksOf C B).getD i [])) := by
      unfold uploadStore
      rw [show storeFind
          ((primary, Message.text (encodeManifest name (perm.map hdl))) ::
            (List.range (chunksOf C B).length).map
              (fun j => (hdl j, Message.piece (pieceName j name) ((chunksOf C B).getD j []))))
          (hdl i) =
        storeFind
          ((List.range (chunksOf C B).length).map
            (fun j => (hdl j, Message.piece (pieceName j name) ((chunksOf C B).getD j []))))
          (hdl i) from by
          simp only [storeFind]
          rw [if_neg (show ¬ primary = hdl i from fun h => hpr i hin h.symm)]]
      exact storeFind_pieces hdl
        (fun j => Message.piece (pieceName j name) ((chunksOf C B).getD j []))
        (List.range (chunksOf C B).length) i (List.mem_range.mpr hin)
        (fun j hj => hinj j (List.mem_range.mp hj) i hin)
    unfold lookupPiece
    rw [hfind]
  have h4 : fetchPieces (uploadStore C B name hdl primary perm) (perm.map hdl) =
      some (perm.map (fun i => (pieceName i name, (chunksOf C B).getD i []))) :=
    fetchPieces_map _ hdl _ perm h3
  have h5 : sortFiles (perm.map (fun i => (pieceName i name, (chunksOf C B).getD i []))) =
      (List.range (chunksOf C B).length).map
        (fun i => (pieceName i name, (chunksOf C B).getD i [])) :=
    sortFiles_eq_target _ _
      (hperm.map _)
      (sorted_range_map _ _ (fun i hi => nameIdx_pieceName i name))
  unfold download getAllFilesDL
  rw [h1]
  show (match decodeManifest (encodeManifest name (perm.map hdl)) with
        | some pr =>
          ((fetchPieces (uploadStore C B name hdl primary perm) pr.2).map sortFiles).map
            mergeToBuffer
        | none => none) = some B
  rw [h2]
  show ((fetchPieces (uploadStore C B name hdl primary perm) (perm.map hdl)).map
      sortFiles).map mergeToBuffer = some B
  rw [h4]
  simp only [Option.map_some', h5, mergeToBuffer]
  rw [show ((List.range (chunksOf C B).length).map
      (fun i => (pieceName i name, (chunksOf C B).getD i []))).map (fun f => f.2) =
    (List.range (chunksOf C B).length).map (fun i => (chunksOf C B).getD i []) from by
      rw [List.map_map]; rfl]
  rw [map_getD_range, chunksOf_flatten C B hC]

theorem firstFail_ok (perm : List Nat) (hdl : Nat → Str) :
    firstFail perm (fun i => Except.ok (hdl i)) = none := by
  induction perm with
  | nil => rfl
  | cons i rest ih =>
    simp only [firstFail, List.findSome?_cons] at ih ⊢
    exact ih

theorem firstFail_some (perm : List Nat) (res : PieceRes) (k : Nat) (e : Str)
    (hk : k ∈ perm) (he : res k = Except.error e) :
    ∃ msg, firstFail perm res = some msg ∧ ∃ j, j ∈ perm ∧ res j = Except.error msg := by
  induction perm with
  | nil => simp at hk
  | cons i rest ih =>
    cases hri : res i with
    | error e' =>
      refine ⟨e', ?_, i, by simp, hri⟩
      simp only [firstFail, List.findSome?_cons, hri, exceptErr]
    | ok h =>
      have hk' : k ∈ rest := by
        rcases List.mem_cons.mp hk with rfl | hmem
        · rw [he] at hri; exact absurd hri (by simp)
        · exact hmem
      rcases ih hk' with ⟨msg, hf, j, hj, hje⟩
      refine ⟨msg, ?_, j, by simp [hj], hje⟩
      simp only [firstFail, List.findSome?_cons, hri, exceptErr] at hf ⊢
      exact hf

/-- C1: for every byte payload `B` (empty included, and payloads at,
above or below the chunk-size boundary), uploading `B` and downloading
via the returned primary handle reproduces `B` byte-exactly, for every
completion order of the concurrent piece uploads — assuming every
transport operation succeeds and returns the stored bytes unchanged (the
webhook assigns distinct ids, distinct from the primary id, free of
triple-backtick sequences, as Discord's decimal ids are). -/
theorem c1_upload_download_roundtrip (C : Nat) (B : List Byte) (name : Str) (hdl : Nat → Str)
    (primary : Str) (perm : List Nat)
    (hC : 0 < C)
    (hperm : perm.Perm (List.range (chunksOf C B).length))
    (hinj : ∀ i < (chunksOf C B).length, ∀ j < (chunksOf C B).length, hdl i = hdl j → i = j)
    (hpr : ∀ i < (chunksOf C B).length, hdl i ≠ primary)
    (hnt : ∀ i < (chunksOf C B).length, hasTriple (hdl i) = false)
    (hname : hasTriple name = false) :
    download (uploadStore C B name hdl primary perm) primary = some B :=
  download_uploadStore C B name hdl primary perm hC hperm hinj hpr hnt hname

theorem c1_witness :
    (0 < 2 ∧ [2, 0, 1].Perm (List.range (chunksOf 2 [7, 1, 7, 1, 9]).length)) ∧
      download (uploadStore 2 [7, 1, 7, 1, 9] ("f.bin".toList) (fun i => natDigits i)
        ("p".toList) [2, 0, 1]) ("p".toList) = some [7, 1, 7, 1, 9] :=
  ⟨⟨by decide, by decide⟩,
    c1_upload_download_roundtrip 2 [7, 1, 7, 1, 9] ("f.bin".toList) (fun i => natDigits i)
      ("p".toList) [2, 0, 1] (by decide) (by decide) (by decide) (by decide) (by decide)
      (by decide)⟩

/-- C2 counterexample: with two pieces whose concurrent uploads complete
in the order piece 1 then piece 0, the receipt's `fileChunkIDs` (and the
`ids` list sent to the manifest message) hold the handle of piece 1 at
position 0: the orchestrator performs no reordering by index, refuting
the claim that position `i` always holds piece `i`'s handle for every
completion order. -/
theorem c2_counterexample :
    (uploadRun [[0], [1]] ("f".toList) (fun i => Except.ok (natDigits i)) [1, 0]
        ("p".toList)).1 =
      UploadOutcome.ok ⟨("p".toList), ("f".toList), [natDigits 1, natDigits 0]⟩ ∧
    natDigits 1 ≠ natDigits 0 := by
  decide

/-- C2 amended: the orchestrator performs no reordering at all — on a
fully successful upload the manifest's `ids` sequence and the returned
`fileChunkIDs` list the piece handles in completion order (`ids.push` in
each callback), so position `k` holds the handle of the piece that
completed `k`-th, and the sequence is a permutation of the index-ordered
handles; download does not rely on this order. -/
theorem c2_ids_in_completion_order (chunks : List (List Byte)) (name : Str)
    (hdl : Nat → Str) (perm : List Nat) (primary : Str)
    (hperm : perm.Perm (List.range chunks.length)) :
    (uploadRun chunks name (fun i => Except.ok (hdl i)) perm primary).1 =
      UploadOutcome.ok ⟨primary, name, perm.map hdl⟩ ∧
    (perm.map hdl).Perm ((List.range chunks.length).map hdl) ∧
    ∀ (k : Nat) (hk : k < perm.length),
      (perm.map hdl).get ⟨k, by simpa using hk⟩ = hdl (perm.get ⟨k, hk⟩) := by
  refine ⟨?_, hperm.map hdl, ?_⟩
  · unfold uploadRun
    rw [firstFail_ok perm hdl]
    simp [exceptHdl]
  · intro k hk
    simp [List.get_eq_getElem]

theorem c2_witness :
    [1, 0].Perm (List.range ([[0], [1]] : List (List Byte)).length) ∧
      (uploadRun [[0], [1]] ("g".toList) (fun i => Except.ok (natDigits i)) [1, 0]
          ("p".toList)).1 =
        UploadOutcome.ok ⟨("p".toList), ("g".toList), [natDigits 1, natDigits 0]⟩ :=
  ⟨by decide,
    (c2_ids_in_completion_order [[0], [1]] ("g".toList) (fun i => natDigits i) [1, 0]
      ("p".toList) (by decide)).1⟩

theorem fetchPieces_all_some (store : Store) (ids : List Str) (files : List (Str × List Byte))
    (h : fetchPieces store ids = some files) :
    (∀ id ∈ ids, (lookupPiece store id).isSome) ∧
      files = ids.map (fun id => (lookupPiece store id).getD ([], [])) := by
  induction ids generalizing files with
  | nil =>
    simp only [fetchPieces] at h
    cases h
    exact ⟨by simp, rfl⟩
  | cons id ids' ih =>
    simp only [fetchPieces] at h
    cases hl : lookupPiece store id with
    | none => rw [hl] at h; cases h
    | some f =>
      rw [hl] at h
      cases hr : fetchPieces store ids' with
      | none => rw [hr] at h; cases h
      | some fs =>
        rw [hr] at h
        cases h
        rcases ih fs hr with ⟨hall, heq⟩
        refine ⟨?_, ?_⟩
        · intro x hx
          rcases List.mem_cons.mp hx with rfl | hmem
          · simp [hl]
          · exact hall x hmem
        · simp [hl, heq]

theorem fetchPieces_of_all_some (store : Store) (l : List Str)
    (h : ∀ id ∈ l, (lookupPiece store id).isSome) :
    fetchPieces store l = some (l.map (fun id => (lookupPiece store id).getD ([], []))) := by
  induction l with
  | nil => rfl
  | cons id l' ih =>
    have h1 := h id (by simp)
    rcases Option.isSome_iff_exists.mp h1 with ⟨f, hf⟩
    simp only [fetchPieces, List.map_cons, hf, ih (fun x hx => h x (by simp [hx]))]
    simp [hf]

/-- C3: download's final assembly order depends only on the numeric index
parsed from each piece's display name: the assembled list is sorted
ascending by that key, it is a permutation of the fetched pieces, and
permuting the manifest's `ids` (resolution order is preserved by
`Promise.all` regardless of completion order) leaves the assembly
unchanged when the parsed keys are distinct. -/
theorem c3_sorted_assembly (store : Store) (ids ids2 : List Str)
    (files : List (Str × List Byte))
    (h : fetchPieces store ids = some files)
    (hperm : ids2.Perm ids)
    (hnodup : (files.map (fun f => nameIdx f.1)).Nodup) :
    List.Sorted (fun a b => nameIdx a.1 ≤ nameIdx b.1) (sortFiles files) ∧
    (sortFiles files).Perm files ∧
    getAllFilesDL store ids = some (sortFiles files) ∧
    getAllFilesDL store ids2 = some (sortFiles files) := by
  rcases fetchPieces_all_some store ids files h with ⟨hall, heq⟩
  have hall2 : ∀ id ∈ ids2, (lookupPiece store id).isSome :=
    fun id hid => hall id (hperm.mem_iff.mp hid)
  have h2 : fetchPieces store ids2 =
      some (ids2.map (fun id => (lookupPiece store id).getD ([], []))) :=
    fetchPieces_of_all_some store ids2 hall2
  have hpermfiles : (ids2.map (fun id => (lookupPiece store id).getD ([], []))).Perm files := by
    rw [heq]
    exact hperm.map _
  have hnsort : ((sortFiles files).map (fun f => nameIdx f.1)).Nodup :=
    (((sortFiles_perm files).map _).nodup_iff).mpr hnodup
  have hsortlt : List.Sorted (fun a b => nameIdx a.1 < nameIdx b.1) (sortFiles files) :=
    sorted_lt_of_sorted_le_nodup _ (sortFiles_sorted_le files) hnsort
  refine ⟨sortFiles_sorted_le files, sortFiles_perm files, ?_, ?_⟩
  · unfold getAllFilesDL
    rw [h, Option.map_some']
  · unfold getAllFilesDL
    rw [h2, Option.map_some']
    refine congrArg some ?_
    exact sortFiles_eq_target _ _ (hpermfiles.trans (sortFiles_perm files).symm) hsortlt

theorem c3_witness :
    (fetchPieces [(("a".toList), Message.piece (pieceName 0 ("f".toList)) [5]),
        (("b".toList), Message.piece (pieceName 1 ("f".toList)) [6])]
        [("a".toList), ("b".toList)] =
        some [(pieceName 0 ("f".toList), [5]), (pieceName 1 ("f".toList), [6])] ∧
      ([("b".toList), ("a".toList)] : List Str).Perm [("a".toList), ("b".toList)]) ∧
    getAllFilesDL [(("a".toList), Message.piece (pieceName 0 ("f".toList)) [5]),
        (("b".toList), Message.piece (pieceName 1 ("f".toList)) [6])]
        [("b".toList), ("a".toList)] =
      some (sortFiles [(pieceName 0 ("f".toList), [5]), (pieceName 1 ("f".toList), [6])]) :=
  ⟨⟨by decide, by decide⟩,
    (c3_sorted_assembly
      [(("a".toList), Message.piece (pieceName 0 ("f".toList)) [5]),
        (("b".toList), Message.piece (pieceName 1 ("f".toList)) [6])]
      [("a".toList), ("b".toList)] [("b".toList), ("a".toList)]
      [(pieceName 0 ("f".toList), [5]), (pieceName 1 ("f".toList), [6])]
      (by decide) (by decide) (by decide)).2.2.2⟩

/-- C4: when the `k`-th of `n` piece uploads fails, `upload` rejects with
the partial-upload rejection (the spec's `PartialUploadError`) carrying a
failing request's error message; it does not resolve successfully on the
strength of the other in-flight uploads, and the manifest POST
(sendFilePrimaryID) is never issued. -/
theorem c4_partial_upload_fail_fast (chunks : List (List Byte)) (name : Str)
    (res : PieceRes) (perm : List Nat) (primary : Str) (k : Nat) (e : Str)
    (hperm : perm.Perm (List.range chunks.length))
    (hk : k < chunks.length)
    (he : res k = Except.error e) :
    (∃ msg, (uploadRun chunks name res perm primary).1 =
        UploadOutcome.partialUploadError msg ∧
      ∃ j, j ∈ perm ∧ res j = Except.error msg) ∧
    (∀ r, (uploadRun chunks name res perm primary).1 ≠ UploadOutcome.ok r) ∧
    TOp.putManifest ∉ (uploadRun chunks name res perm primary).2 := by
  have hkperm : k ∈ perm := hperm.mem_iff.mpr (List.mem_range.mpr hk)
  rcases firstFail_some perm res k e hkperm he with ⟨msg, hf, j, hj, hje⟩
  have hrun : uploadRun chunks name res perm primary =
      (UploadOutcome.partialUploadError msg,
        (List.range chunks.length).map (fun i => TOp.putPiece (pieceName i name))) := by
    unfold uploadRun
    rw [hf]
  refine ⟨⟨msg, by rw [hrun], j, hj, hje⟩, ?_, ?_⟩
  · intro r
    rw [hrun]
    simp
  · rw [hrun]
    simp

theorem c4_witness :
    (([1, 0] : List Nat).Perm (List.range ([[0], [1]] : List (List Byte)).length) ∧
      0 < ([[0], [1]] : List (List Byte)).length ∧
      (fun i => if i = 0 then (Except.error ("boom".toList) : Except Str Str)
        else Except.ok (natDigits i)) 0 = Except.error ("boom".toList)) ∧
    TOp.putManifest ∉ (uploadRun [[0], [1]] ("f".toList)
      (fun i => if i = 0 then (Except.error ("boom".toList) : Except Str Str)
        else Except.ok (natDigits i)) [1, 0] ("p".toList)).2 :=
  ⟨⟨by decide, by decide, rfl⟩,
    (c4_partial_upload_fail_fast [[0], [1]] ("f".toList)
      (fun i => if i = 0 then (Except.error ("boom".toList) : Except Str Str)
        else Except.ok (natDigits i)) [1, 0] ("p".toList) 0 ("boom".toList)
      (by decide) (by decide) rfl).2.2⟩

/-- C5: a blank (empty or whitespace-only) file name makes
uploadFileStream reject with a validation error, and the transport trace
is empty: the rejection happens before any network call. -/
theorem c5_blank_name_validation (st : StreamBehavior) (units : List (List Byte))
    (name : Str) (res : PieceRes) (perm : List Nat) (primary : Str)
    (hblank : isBlankName name = true) :
    ∃ m, uploadFileStream st units name res perm primary =
      (StreamOutcome.rejected (Rejection.validation m), []) := by
  unfold uploadFileStream
  cases hcs : (checkFileStream st).1 with
  | some msg => exact ⟨msg, rfl⟩
  | none =>
    rw [if_pos hblank]
    exact ⟨emptyNameMsg, rfl⟩

theorem c5_witness :
    isBlankName [' ', ' '] = true ∧
    ∃ m, uploadFileStream ⟨true, true, none⟩ [[1]] [' ', ' ']
        (fun i => Except.ok (natDigits i)) [0] ("p".toList) =
      (StreamOutcome.rejected (Rejection.validation m), []) :=
  ⟨by decide,
    c5_blank_name_validation ⟨true, true, none⟩ [[1]] [' ', ' ']
      (fun i => Except.ok (natDigits i)) [0] ("p".toList) (by decide)⟩

/-- C6 counterexample: a source may deliver a 25-byte payload as five
units of 5 bytes each — every unit is within the chunk-size bound of 10 —
and getChunks then emits five pieces, not `ceil(25 / 10) = 3`: the
chunk-count law fails for sources that merely keep units at most `C`
bytes, because getChunks wraps each delivered unit into exactly one piece
and never re-merges. -/
theorem c6_counterexample :
    (∀ u ∈ [[0, 1, 2, 3, 4], [5, 6, 7, 8, 9], [10, 11, 12, 13, 14],
        [15, 16, 17, 18, 19], [20, 21, 22, 23, 24]], List.length u ≤ 10) ∧
    ((getChunks [[0, 1, 2, 3, 4], [5, 6, 7, 8, 9], [10, 11, 12, 13, 14],
        [15, 16, 17, 18, 19], [20, 21, 22, 23, 24]]).flatten.length = 25) ∧
    (getChunks [[0, 1, 2, 3, 4], [5, 6, 7, 8, 9], [10, 11, 12, 13, 14],
        [15, 16, 17, 18, 19], [20, 21, 22, 23, 24]]).length = 5 ∧
    (25 + 10 - 1) / 10 = 3 ∧ ¬(5 = 3) := by
  decide

/-- C6 amended: when the source delivers units of exactly the chunk size
except for a shorter final unit — as createChunkedStream and a read
stream with `highWaterMark C` do — the Chunker emits exactly
`ceil(S / C)` pieces (0 for an empty payload); in particular with chunk
size 10 and the 25-byte payload 0..24 it yields 3 pieces of lengths
`[10, 10, 5]` whose concatenation in index order is the original
payload. -/
theorem c6_chunk_count_law (C : Nat) (B : List Byte) (hC : 0 < C) :
    (getChunks (chunksOf C B)).length = (B.length + C - 1) / C ∧
    (getChunks (chunksOf C B)).flatten = B ∧
    (getChunks (chunksOf 10 (List.range 25))).map List.length = [10, 10, 5] ∧
    (getChunks (chunksOf 10 (List.range 25))).flatten = List.range 25 := by
  refine ⟨chunksOf_length C B hC, chunksOf_flatten C B hC, by decide, by decide⟩

theorem c6_witness :
    0 < 3 ∧ (getChunks (chunksOf 3 [1, 2, 3, 4])).length = (4 + 3 - 1) / 3 :=
  ⟨by decide, (c6_chunk_count_law 3 [1, 2, 3, 4] (by decide)).1⟩

/-- C7 counterexample: a file name containing three consecutive backticks
is corrupted by the round trip — `replaceAll` deletes the backtick triple
inside the JSON string value, so decode returns a different manifest:
the round-trip claim fails for arbitrary strings. -/
theorem c7_counterexample :
    decodeManifest (encodeManifest ("a```b".toList) []) = some (("ab".toList), []) ∧
    decodeManifest (encodeManifest ("a```b".toList) []) ≠ some (("a```b".toList), []) := by
  decide

/-- C7 amended: the manifest codec round trip holds for every file name
and every ordered list of opaque id strings provided none of them
contains three consecutive backticks (the code-block delimiter deleted by
download's `replaceAll`). -/
theorem c7_manifest_roundtrip (name : Str) (ids : List Str)
    (hn : hasTriple name = false) (hi : ∀ id ∈ ids, hasTriple id = false) :
    decodeManifest (encodeManifest name ids) = some (name, ids) :=
  decodeManifest_encodeManifest name ids hn hi

theorem c7_witness :
    (hasTriple ("my file.bin".toList) = false ∧
      ∀ id ∈ [("123".toList), ("45".toList)], hasTriple id = false) ∧
    decodeManifest (encodeManifest ("my file.bin".toList) [("123".toList), ("45".toList)]) =
      some (("my file.bin".toList), [("123".toList), ("45".toList)]) :=
  ⟨⟨by decide, by decide⟩,
    c7_manifest_roundtrip ("my file.bin".toList) [("123".toList), ("45".toList)]
      (by decide) (by decide)⟩

/-- C8: for every Readable-stream argument — including an empty stream
and a stream that emits an error — checkFileStream returns `null`: the
`Stream is empty.` and `Stream error` strings are computed inside the
registered event handlers and never surfaced to the synchronous caller,
so uploadFileStream's validation step rejects with the invalid-stream
message only when the argument is not a Readable stream at all. -/
theorem c8_stream_check_silent (st : StreamBehavior) (units : List (List Byte))
    (name : Str) (res : PieceRes) (perm : List Nat) (primary : Str)
    (hr : st.isReadable = true) :
    (checkFileStream st).1 = none ∧
    (st.emitsData = false → emptyStreamMsg ∈ (checkFileStream st).2) ∧
    (∀ m, st.emitsError = some m → streamErrMsgOf m ∈ (checkFileStream st).2) ∧
    (uploadFileStream st units name res perm primary).1 ≠
      StreamOutcome.rejected (Rejection.validation invalidStreamMsg) := by
  have hcs : checkFileStream st =
      (none,
        (match st.emitsError with
          | some m => [streamErrMsgOf m]
          | none => []) ++
        (if st.emitsData = false then [emptyStreamMsg] else [])) := by
    unfold checkFileStream
    rw [if_neg (by rw [hr]; simp)]
  refine ⟨by rw [hcs], ?_, ?_, ?_⟩
  · intro hd
    rw [hcs]
    simp [hd]
  · intro m hm
    rw [hcs]
    simp [hm]
  · unfold uploadFileStream
    rw [hcs]
    by_cases hb : isBlankName name = true
    · rw [if_pos hb]
      intro hcontra
      have : emptyNameMsg = invalidStreamMsg := by
        injection hcontra with h1
        injection h1
      exact absurd this (by decide)
    · rw [if_neg hb]
      cases hrun : uploadRun units name res perm primary with
      | mk outcome ops =>
        cases outcome with
        | ok r => simp
        | partialUploadError e => simp

theorem c8_witness :
    (StreamBehavior.mk true false (some ("eek".toList))).isReadable = true ∧
    (checkFileStream ⟨true, false, some ("eek".toList)⟩).1 = none ∧
    emptyStreamMsg ∈ (checkFileStream ⟨true, false, some ("eek".toList)⟩).2 ∧
    streamErrMsgOf ("eek".toList) ∈ (checkFileStream ⟨true, false, some ("eek".toList)⟩).2 :=
  ⟨rfl,
    (c8_stream_check_silent ⟨true, false, some ("eek".toList)⟩ [] ("f".toList)
      (fun i => Except.ok (natDigits i)) [] ("p".toList) rfl).1,
    (c8_stream_check_silent ⟨true, false, some ("eek".toList)⟩ [] ("f".toList)
      (fun i => Except.ok (natDigits i)) [] ("p".toList) rfl).2.1 rfl,
    (c8_stream_check_silent ⟨true, false, some ("eek".toList)⟩ [] ("f".toList)
      (fun i => Except.ok (natDigits i)) [] ("p".toList) rfl).2.2.1 ("eek".toList) rfl⟩

/-- C9: the `chunkSize` binding that DisFile.js destructures from
`require("../utils")` is a snapshot of the module variable taken when the
module finished loading; setChunkSize (called by the DisFile constructor)
reassigns the module-local variable but never the exported snapshot, so
uploadFile always opens its read stream with a `highWaterMark` of the
initial 20 MiB default, whatever chunk size the constructor received. -/
theorem c9_chunk_size_snapshot (c : Nat) (h : c ≠ utilsDefaultChunkSize) :
    uploadFileHighWaterMark = utilsDefaultChunkSize ∧
    (disFileCtor utilsLoad c).chunkSizeVar = c ∧
    (∀ s : UtilsState, (disFileCtor s c).chunkSizeVar = c) ∧
    uploadFileHighWaterMark ≠ c := by
  refine ⟨rfl, rfl, fun s => rfl, ?_⟩
  intro hc
  have hdef : uploadFileHighWaterMark = utilsDefaultChunkSize := rfl
  rw [hdef] at hc
  exact h hc.symm

theorem c9_witness :
    (5 : Nat) ≠ utilsDefaultChunkSize ∧
      (uploadFileHighWaterMark = utilsDefaultChunkSize ∧
        (disFileCtor utilsLoad 5).chunkSizeVar = 5 ∧ uploadFileHighWaterMark ≠ 5) :=
  ⟨by decide,
    ⟨(c9_chunk_size_snapshot 5 (by decide)).1, (c9_chunk_size_snapshot 5 (by decide)).2.1,
      (c9_chunk_size_snapshot 5 (by decide)).2.2.2⟩⟩

/-- C10: a zero-length readable source uploads successfully: getChunks
yields no pieces, the receipt's `fileChunkIDs` is empty, the only
transport operation is the manifest POST, the stored manifest's `ids`
sequence is empty, and downloading the primary handle returns the empty
buffer. -/
theorem c10_empty_payload :
    uploadFileStream ⟨true, false, none⟩ (getChunks []) ("f".toList)
        (fun i => Except.ok (natDigits i)) [] ("p".toList) =
      (StreamOutcome.ok ⟨("p".toList), ("f".toList), []⟩, [TOp.putManifest]) ∧
    chunksOf 10 [] = [] ∧
    storeFind (uploadStore 10 [] ("f".toList) natDigits ("p".toList) []) ("p".toList) =
      some (Message.text (encodeManifest ("f".toList) [])) ∧
    download (uploadStore 10 [] ("f".toList) natDigits ("p".toList) []) ("p".toList) =
      some [] := by
  decide
